import Mathlib

/-!
Verification of the `lint-roller-markdown-api-history` linter
(`bin/lint-markdown-api-history.ts`): the API-history block extraction and
validation pipeline.  The definitions below are a shallow embedding of the
TypeScript source: the external parsers (`mdast-util-from-markdown`,
`hast-util-from-html`, the YAML parser, the AJV schema validator) are
black boxes, modelled as function parameters producing the document-AST
shapes the linter consumes, while every piece of logic written in the
linter itself (the candidate-block scan, the two-stage re-parse checks, the
string-safety regex heuristic, the placement / schema / cross-reference
validators, the counter and exit-code plumbing) is translated directly.
-/

namespace ApiHistoryLint

/-! ## JavaScript character classes and string helpers

The linter's string heuristic is the regex `/^[ \S]+?: *?(\S[ \S]+?)$/gm`.
We model JavaScript regex semantics for exactly this pattern: `\S` is the
complement of the ECMAScript WhiteSpace / LineTerminator set, `^`/`$` with
the `m` flag anchor at line boundaries (lines are delimited by LF, CR,
U+2028, U+2029), and the lazy quantifiers give the leftmost-shortest split
around a `:`. -/

/-- ECMAScript whitespace (`\s`): WhiteSpace plus LineTerminator code points. -/
def jsWhitespace (c : Char) : Bool :=
  c = ' ' || c = '\t' || c = '\n' || c = '\r' ||
  c.val = 0x0b || c.val = 0x0c || c.val = 0xa0 || c.val = 0x1680 ||
  (0x2000 ≤ c.val && c.val ≤ 0x200a) || c.val = 0x2028 || c.val = 0x2029 ||
  c.val = 0x202f || c.val = 0x205f || c.val = 0x3000 || c.val = 0xfeff

/-- ECMAScript LineTerminator code points (where `m`-flag anchors match). -/
def lineTerminator (c : Char) : Bool :=
  c = '\n' || c = '\r' || c.val = 0x2028 || c.val = 0x2029

/-- The regex character class `[ \S]`: a space, or any non-whitespace char. -/
def inStringClass (c : Char) : Bool :=
  c = ' ' || !jsWhitespace c

/-- Split a string into the lines seen by a multiline-anchored regex. -/
def jsLines : List Char → List (List Char)
  | [] => [[]]
  | c :: rest =>
    if lineTerminator c then [] :: jsLines rest
    else
      match jsLines rest with
      | [] => [[c]]
      | l :: ls => (c :: l) :: ls

/-- JavaScript `String.prototype.trim` on a character list. -/
def jsTrim (l : List Char) : List Char :=
  ((l.dropWhile jsWhitespace).reverse.dropWhile jsWhitespace).reverse

/-- JavaScript `String.prototype.toLowerCase`, ASCII fragment. -/
def sToLower (s : String) : String := ⟨s.data.map Char.toLower⟩

/-- Substring test (JavaScript `String.prototype.includes`). -/
def hasSubstr : List Char → List Char → Bool
  | s, pat =>
    pat.isPrefixOf s ||
      match s with
      | [] => false
      | _ :: t => hasSubstr t pat

/-- `v.toLowerCase().includes(tok)` for a lowercase token `tok`. -/
def containsToken (v : String) (tok : String) : Bool :=
  hasSubstr (sToLower v).data tok.data

/-- The double-quote character. -/
def dquoteChar : Char := Char.ofNat 34

/-- The single-quote character. -/
def squoteChar : Char := Char.ofNat 39

/-! ### The match of `/^[ \S]+?: *?(\S[ \S]+?)$/` on one line

The lazy prefix `[ \S]+?` makes the engine try each `:` from the left; for
a candidate colon the lazy ` *?` stops at the first non-space character,
which must start a group `\S[ \S]+?` (at least two characters) that runs to
the end of the line.  On failure the colon is absorbed into the prefix and
the search continues with the next colon. -/

/-- Attempt to match ` *?(\S[ \S]+?)$` against the text after a colon,
returning the captured group. -/
def matchValuePart (rest : List Char) : Option (List Char) :=
  let v := rest.dropWhile (· = ' ')
  match v with
  | [] => none
  | c :: tail =>
    if !jsWhitespace c && !tail.isEmpty && tail.all inStringClass then some v
    else none

/-- Backtracking loop for the whole-line match: `pre` is the (reversed)
prefix consumed so far.  Returns `(key, capture)` for the first colon split
that succeeds. -/
def matchLineFrom : List Char → List Char → Option (List Char × List Char)
  | _, [] => none
  | pre, c :: rest =>
    if c = ':' && !pre.isEmpty then
      match matchValuePart rest with
      | some g => some (pre.reverse, g)
      | none => if inStringClass c then matchLineFrom (c :: pre) rest else none
    else if inStringClass c then matchLineFrom (c :: pre) rest else none

/-- All matches of `possibleStringRegex` over a string, in document order:
one per line that matches, as `(matched line, key, captured group)`. -/
def possibleStringMatches (value : String) : List (String × String × String) :=
  (jsLines value.data).filterMap fun L =>
    (matchLineFrom [] L).map fun p => (⟨L⟩, ⟨p.1⟩, ⟨p.2⟩)

/-! ## Diagnostics -/

/-- One diagnostic printed by the linter.  Constructors ending in `Error`
are printed with `console.error` and bump `errorCounter`; the two warning
constructors are printed with `console.warn` and bump `warningCounter`. -/
inductive Diag where
  | formatError (blockValue : String)
  | stringWarning (matchedLine : String) (matchedGroup : String)
  | placementError (blockValue : String)
  | yamlParseError (msg : String)
  | schemaError (blockValue : String)
  | refError (header : String)
  | prWarning (prNumber : String)
  | descriptionError (matchedLine : String)
deriving DecidableEq

/-- Whether a diagnostic increments the error counter (as opposed to the
warning counter). -/
def Diag.isError : Diag → Bool
  | .stringWarning _ _ => false
  | .prWarning _ => false
  | _ => true

/-- Errors among a diagnostic list. -/
def countErrors (ds : List Diag) : Nat := ds.countP (·.isError)

/-- Warnings among a diagnostic list. -/
def countWarnings (ds : List Diag) : Nat := ds.countP (fun d => !d.isError)

/-! ## The string-safety heuristic (`checkStrings`, lines 325-359) -/

/-- `[^a-zA-Z0-9.]` membership of the regex `nonAlphaNumericDotRegex`. -/
def nonAlphaNumericDot (c : Char) : Bool :=
  !(('a' ≤ c && c ≤ 'z') || ('A' ≤ c && c ≤ 'Z') || ('0' ≤ c && c ≤ '9') || c = '.')

/-- `isMatchedGroupInsideQuotes`: the trimmed group both starts and ends
with a double quote, or both starts and ends with a single quote. -/
def insideQuotes (t : List Char) : Bool :=
  (t.head? = some dquoteChar && t.getLast? = some dquoteChar) ||
  (t.head? = some squoteChar && t.getLast? = some squoteChar)

/-- The warning condition of the string-safety loop body: not inside
quotes, and the first or last character of the trimmed group is
non-alphanumeric-non-dot.  (The captured group always starts with a
non-whitespace character, so the trimmed group is never empty.) -/
def suspiciousGroup (g : String) : Bool :=
  let t := jsTrim g.data
  if insideQuotes t then false
  else
    match t.head?, t.getLast? with
    | some a, some b => nonAlphaNumericDot a || nonAlphaNumericDot b
    | _, _ => false

/-- The diagnostics produced by the `checkStrings` block for one code
block's text: one warning per regex match whose group is suspicious. -/
def stringCheckDiags (value : String) : List Diag :=
  (possibleStringMatches value).filterMap fun m =>
    if suspiciousGroup m.2.2 then some (.stringWarning m.1 m.2.2) else none

/-! ## The mdast document tree

The outer Markdown parser produces a tree of nodes; the linter only
distinguishes `html` nodes (raw/opaque content, carrying a `value`),
`heading` nodes (with a `depth` and literal children), `code` nodes (with
`lang`, `meta` and `value`, produced when re-parsing a comment's inner
text) and everything else, which we split into literal leaf nodes (which
carry a `value`) and container nodes (which carry children which `visit`
descends into). -/

inductive MdNode where
  | html (value : String)
  | heading (depth : Nat) (children : List MdNode)
  | code (lang : Option String) (meta : Option String) (value : String)
  | literal (typ : String) (value : String)
  | container (typ : String) (children : List MdNode)

/-- The `children` array of a node (`[]` for childless node kinds). -/
def MdNode.childNodes : MdNode → List MdNode
  | .heading _ cs => cs
  | .container _ cs => cs
  | _ => []

/-- The `value` field of a node, when the node is a `Literal` (JavaScript
would read `undefined` on the others). -/
def MdNode.literalValue : MdNode → Option String
  | .html v => some v
  | .code _ _ v => some v
  | .literal _ v => some v
  | _ => none

/-- Whether a node is a heading (the placement check's test). -/
def MdNode.isHeading : MdNode → Bool
  | .heading _ _ => true
  | _ => false

/-! ## The Block Locator (`findPossibleApiHistoryBlocks`, lines 173-206) -/

/-- The `visit` test: an `html` node whose lowercased text contains a
code fence, "yaml" and "history". -/
def isApiHistoryCandidate : MdNode → Bool
  | .html v => containsToken v "```" && containsToken v "yaml" && containsToken v "history"
  | _ => false

mutual

/-- Preorder visit of one node: collect the node if the test passes (only
`html` nodes can pass), then visit its children.  `i` is the node's index
in its parent's `children` array, which `visit` hands to the visitor. -/
def collectNode : MdNode → Nat → List (MdNode × Nat)
  | .html v, i => if isApiHistoryCandidate (.html v) then [(.html v, i)] else []
  | .heading _ cs, _ => collectChildren cs 0
  | .container _ cs, _ => collectChildren cs 0
  | .code _ _ _, _ => []
  | .literal _ _, _ => []

/-- Preorder visit of a `children` array starting at index `i`. -/
def collectChildren : List MdNode → Nat → List (MdNode × Nat)
  | [], _ => []
  | n :: rest, i => collectNode n i ++ collectChildren rest (i + 1)

end

mutual

/-- All nodes of a subtree in preorder (document order). -/
def preorderNode : MdNode → List MdNode
  | .html v => [.html v]
  | .heading d cs => .heading d cs :: preorderList cs
  | .code l m v => [.code l m v]
  | .literal t v => [.literal t v]
  | .container t cs => .container t cs :: preorderList cs

/-- All nodes of a forest in preorder. -/
def preorderList : List MdNode → List MdNode
  | [] => []
  | n :: rest => preorderNode n ++ preorderList rest

end

/-- `findPossibleApiHistoryBlocks` on an already-parsed tree (the source
first runs `fromMarkdown` on the document text; the tree is the external
parser's output).  Each matched node is paired with
`tree.children[index - 1]` — the ROOT's child at `index - 1`, where
`index` is the match's index within its own parent (`undefined`, hence
`none`, when that is out of range). -/
def findPossibleApiHistoryBlocks (rootChildren : List MdNode) :
    List (MdNode × Option MdNode) :=
  (collectChildren rootChildren 0).map fun p =>
    (p.1, if p.2 = 0 then none else rootChildren.get? (p.2 - 1))

/-! ## The Breaking-Changes Index (lines 257-283) -/

/-- One child's contribution to a heading id:
`value.toLowerCase().replace(/ /g, '-').replace(/[^a-zA-Z0-9-]/g, '')`. -/
def slugifyValue (s : String) : String :=
  ⟨(((s.data.map Char.toLower).map fun c => if c = ' ' then '-' else c).filter
    fun c => ('a' ≤ c && c ≤ 'z') || ('A' ≤ c && c ≤ 'Z') ||
      ('0' ≤ c && c ≤ '9') || c = '-')⟩

/-- One step of the reduce building a heading id: append the child's
slugified `value`; a child without a `value` makes JavaScript throw a
`TypeError` (`undefined.toLowerCase`), modelled as `none`. -/
def headingIdStep (acc : Option String) (cur : MdNode) : Option String :=
  match acc, cur.literalValue with
  | some a, some v => some (a ++ slugifyValue v)
  | _, _ => none

/-- The heading id of one heading: the reduce over its children,
concatenating each child's slugified `value`. -/
def headingId (children : List MdNode) : Option String :=
  children.foldl headingIdStep (some "")

/-- Build `breakingChangesFileHeadingIds` from the parsed breaking-changes
file: filter the ROOT children for depth-3 headings and map each to its
heading id; a `TypeError` while slugifying propagates as `none`. -/
def buildHeadingIds (bcChildren : List MdNode) : Option (List String) :=
  let headings := bcChildren.filter fun n =>
    match n with
    | .heading d _ => d = 3
    | _ => false
  headings.foldr
    (fun h acc =>
      match headingId h.childNodes, acc with
      | some i, some is => some (i :: is)
      | _, _ => none)
    (some [])

/-! ## The Decoded History value -/

/-- The `ChangeSchema` record shape. -/
structure ChangeSchema where
  prUrl : String
  breakingChangesHeader : Option String := none
  description : Option String := none
deriving DecidableEq

/-- The `ApiHistory` record shape (all three arrays optional). -/
structure ApiHistory where
  added : Option (List ChangeSchema) := none
  deprecated : Option (List ChangeSchema) := none
  changes : Option (List ChangeSchema) := none
deriving DecidableEq

/-! ## Cross-reference validators -/

/-- The `breakingChangeHeaders` array built at lines 417-428: the truthy
`breaking-changes-header` of every entry of `changes` then `deprecated`
(a JavaScript empty string is falsy and skipped). -/
def breakingChangeHeaders (hist : ApiHistory) : List String :=
  ((hist.changes.getD []) ++ (hist.deprecated.getD [])).filterMap fun c =>
    match c.breakingChangesHeader with
    | some h => if h = "" then none else some h
    | none => none

/-- The breaking-changes cross-reference (lines 414-447): one error per
collected header missing from the index (verbatim membership test). -/
def breakingChangesDiags (hist : ApiHistory) (ids : List String) : List Diag :=
  (breakingChangeHeaders hist).filterMap fun h =>
    if ids.contains h then none else some (.refError h)

/-- JavaScript `'...'.split('/')`. -/
def jsSplitSlash (s : String) : List String :=
  (s.data.foldr
    (fun c acc =>
      match acc with
      | [] => [[c]]
      | l :: ls => if c = '/' then [] :: l :: ls else (c :: l) :: ls)
    [[]]).map fun l => (⟨l⟩ : String)

/-- JavaScript `Number(s)` restricted to the shapes that can index the PR
container: `""` is `0`, a digit string is its value, anything else is
`NaN` (modelled `none`, which no key equals). -/
def jsNumber (s : String) : Option Nat :=
  if s.data = [] then some 0
  else if s.data.all Char.isDigit then
    some (s.data.foldl (fun a c => a * 10 + (c.val.toNat - 48)) 0)
  else none

/-- The trailing segment of a `pr-url` (`split('/').at(-1)!`). -/
def prUrlNumber (c : ChangeSchema) : String :=
  (jsSplitSlash c.prUrl).getLastD ""

/-- The pull-request cross-reference (lines 449-486): the PR numbers of
`added`, `changes`, `deprecated` in that order; one warning per number
whose numeric form is not a key of the release container. -/
def pullRequestDiags (hist : ApiHistory) (prVersions : List Nat) : List Diag :=
  let prs := (hist.added.getD []).map prUrlNumber ++
    (hist.changes.getD []).map prUrlNumber ++
    (hist.deprecated.getD []).map prUrlNumber
  prs.filterMap fun p =>
    match jsNumber p with
    | some n => if prVersions.contains n then none else some (.prWarning p)
    | none => some (.prWarning p)

/-! ## The hast fragment (output of `hast-util-from-html`) -/

/-- A node of the re-parsed HTML fragment: the linter only looks at the
first child's `type` (must be `'comment'`) and its `value`. -/
inductive HNode where
  | comment (value : String)
  | element (tagName : String)
  | htext (value : String)
deriving DecidableEq

/-- The `type === 'comment'` test. -/
def HNode.isComment : HNode → Bool
  | .comment _ => true
  | _ => false

/-! ## Options and results -/

/-- The destructured `Options` of `main`.  `schema` and
`breakingChangesFile` are the JavaScript strings; the empty string models
a falsy (absent) path. -/
structure Options where
  checkPlacement : Bool
  checkPullRequestLinks : Bool
  breakingChangesFile : String
  checkStrings : Bool
  schema : String
deriving DecidableEq

/-- The `LintingResults` record resolved by `main`. -/
structure LintingResults where
  historyBlockCounter : Nat
  documentCounter : Nat
  errorCounter : Nat
  warningCounter : Nat
deriving DecidableEq

/-- The external collaborators `main` consumes: the two re-parsers, the
YAML decoder (an exception carries the parser's message), the compiled
AJV validator (when a schema was compiled) and the PR release container's
key set.  They are black boxes; the linter only forwards their outputs. -/
structure Env where
  fromHtml : String → List HNode
  fromMarkdown : String → List MdNode
  parseYaml : String → Except String ApiHistory
  validateAgainstSchema : Option (ApiHistory → Bool)
  breakingChangesFileHeadingIds : Option (List String)
  prVersions : List Nat

/-! ## Per-block processing (the body of the inner `for` loop,
lines 293-489) -/

/-- Whether the fence extracted from the comment is accepted (the negation
of the condition at lines 306-310): a `code` node whose `lang`, lowercased,
is `"yaml"` and whose `meta`, trimmed, is `"history"` (this comparison is
case-sensitive in the source). -/
def acceptsFence : MdNode → Bool
  | .code lang mt _ =>
    (lang.map sToLower) = some "yaml" &&
      (mt.map fun s => (⟨jsTrim s.data⟩ : String)) = some "history"
  | _ => false

/-- The `value` of the accepted code node. -/
def fenceValue : MdNode → String
  | .code _ _ v => v
  | _ => ""

/-- Process one candidate block: the result is the ordered list of
diagnostics the block contributes, or `Except.error ()` when the iteration
body throws (destructuring the first child of an empty `children` array
makes JavaScript fail on `undefined.type`), which escapes to `main`'s
`catch`.  Every `continue` of the source is an early `.ok`. -/
def processBlock (env : Env) (opts : Options) (blockValue : String)
    (previousNode : Option MdNode) : Except Unit (List Diag) :=
  match (env.fromHtml blockValue).head? with
  | none => .error ()
  | some htmlComment =>
    if !htmlComment.isComment then .ok []
    else
      match htmlComment with
      | .comment commentText =>
        match (env.fromMarkdown commentText).head? with
        | none => .error ()
        | some codeBlock =>
          if !acceptsFence codeBlock then .ok [.formatError blockValue]
          else
            let codeVal := fenceValue codeBlock
            let sDiags := if opts.checkStrings then stringCheckDiags codeVal else []
            if opts.checkPlacement &&
                !((previousNode.map MdNode.isHeading).getD false) then
              .ok (sDiags ++ [.placementError blockValue])
            else
              match env.parseYaml codeVal with
              | .error msg => .ok (sDiags ++ [.yamlParseError msg])
              | .ok hist =>
                if opts.schema = "" || env.validateAgainstSchema.isNone then
                  .ok sDiags
                else if !((env.validateAgainstSchema.map fun v => v hist).getD true) then
                  .ok (sDiags ++ [.schemaError blockValue])
                else
                  let bcDiags :=
                    if opts.breakingChangesFile ≠ "" &&
                        env.breakingChangesFileHeadingIds.isSome then
                      breakingChangesDiags hist
                        (env.breakingChangesFileHeadingIds.getD [])
                    else []
                  let prDiags :=
                    if opts.checkPullRequestLinks then
                      pullRequestDiags hist env.prVersions
                    else []
                  .ok (sDiags ++ bcDiags ++ prDiags)
      | _ => .ok []

/-- The diagnostics the `checkStrings` stage contributes for a block whose
fence was accepted (named for readability of the theorems below; it is
exactly the `if checkStrings` subexpression of `processBlock`). -/
def blockStringDiags (opts : Options) (cb : MdNode) : List Diag :=
  if opts.checkStrings then stringCheckDiags (fenceValue cb) else []

/-! ## The corpus scan (lines 285-492) and `main`'s
`try`/`catch`/`finally` (lines 232-498) -/

/-- Fold one document's candidate blocks into the counters; a thrown
iteration aborts with the counters accumulated so far. -/
def processBlocks (env : Env) (opts : Options)
    (blks : List (MdNode × Option MdNode)) (acc : LintingResults) :
    Except LintingResults LintingResults :=
  match blks with
  | [] => .ok acc
  | (n, prev) :: rest =>
    match processBlock env opts ((n.literalValue).getD "") prev with
    | .error () =>
      .error { acc with historyBlockCounter := acc.historyBlockCounter + 1 }
    | .ok ds =>
      processBlocks env opts rest
        { acc with
          historyBlockCounter := acc.historyBlockCounter + 1
          errorCounter := acc.errorCounter + countErrors ds
          warningCounter := acc.warningCounter + countWarnings ds }

/-- The document loop: each document is counted, its candidate blocks
located and processed in order; a throw aborts the whole loop. -/
def scanDocuments (env : Env) (opts : Options) (docs : List (List MdNode))
    (acc : LintingResults) : Except LintingResults LintingResults :=
  match docs with
  | [] => .ok acc
  | d :: rest =>
    match processBlocks env opts (findPossibleApiHistoryBlocks d)
        { acc with documentCounter := acc.documentCounter + 1 } with
    | .error a => .error a
    | .ok a => scanDocuments env opts rest a

/-- The all-zero counters `main` declares before its `try`. -/
def zeroResults : LintingResults :=
  { historyBlockCounter := 0, documentCounter := 0, errorCounter := 0,
    warningCounter := 0 }

/-- The outcome of `main`'s setup (schema read+compile when `schema` is
truthy, breaking-changes read+parse when that path is truthy): the thrown
`Error` of either wrapper escapes to `main`'s `catch` while the counters
are still all zero.  `schemaLoad` and `bcLoad` are the I/O outcomes. -/
def setupEnv (opts : Options) (schemaLoad : Except Unit (ApiHistory → Bool))
    (bcLoad : Except Unit (List MdNode)) (base : Env) : Except Unit Env := do
  let validate ← if opts.schema = "" then pure none else do
    let v ← schemaLoad
    pure (some v)
  let bcIds ← if opts.breakingChangesFile = "" then pure none else do
    let t ← bcLoad
    match buildHeadingIds t with
    | some is => pure (some is)
    | none => Except.error ()
  pure { base with validateAgainstSchema := validate,
                   breakingChangesFileHeadingIds := bcIds }

/-- The body of `main`'s `try`: setup, then the corpus scan. -/
def setupAndScan (opts : Options) (schemaLoad : Except Unit (ApiHistory → Bool))
    (bcLoad : Except Unit (List MdNode)) (base : Env)
    (docs : List (List MdNode)) : Except LintingResults LintingResults :=
  match setupEnv opts schemaLoad bcLoad base with
  | .error () => .error zeroResults
  | .ok env => scanDocuments env opts docs zeroResults

/-- `main`: the `catch` increments `errorCounter` once and the `finally`
returns the counters regardless, so `main` always resolves with a
`LintingResults`. -/
def main (opts : Options) (schemaLoad : Except Unit (ApiHistory → Bool))
    (bcLoad : Except Unit (List MdNode)) (base : Env)
    (docs : List (List MdNode)) : LintingResults :=
  match setupAndScan opts schemaLoad bcLoad base docs with
  | .ok r => r
  | .error c => { c with errorCounter := c.errorCounter + 1 }

/-- The process exit status computed by `init` from `main`'s results
(line 604): 1 exactly when the error counter is positive. -/
def exitCode (r : LintingResults) : Nat :=
  if r.errorCounter > 0 then 1 else 0

/-- How one invocation ends. -/
inductive RunOutcome where
  | configFailure
  | completed (r : LintingResults) (code : Nat)
deriving DecidableEq

/-- `init` (lines 534-609): a failing `access` check on a configured
schema or breaking-changes path throws before `main` is ever called, and
the `catch` exits 1 with no document scanned; otherwise `main` runs and
the summary and exit status are computed from its counters. -/
def init (opts : Options) (schemaAccessOk bcAccessOk : Bool)
    (schemaLoad : Except Unit (ApiHistory → Bool))
    (bcLoad : Except Unit (List MdNode)) (base : Env)
    (docs : List (List MdNode)) : RunOutcome :=
  if opts.schema ≠ "" && !schemaAccessOk then .configFailure
  else if opts.breakingChangesFile ≠ "" && !bcAccessOk then .configFailure
  else
    let r := main opts schemaLoad bcLoad base docs
    .completed r (exitCode r)

/-! ## The Description-Quoting Check -/

/-- Modelled from the spec: helper for the Description-Quoting Check —
whether a matched key ends in "description". -/
def keyEndsInDescription (k : String) : Bool :=
  List.isSuffixOf "description".data k.data

/-- Modelled from the spec: the `--check-descriptions` Description-Quoting
Check is exercised by this repository's test suite but its implementation
is not among the sources here, so it is modelled from the spec's words:
"scans raw text for lines matching `<key ending in "description">:
<value>`; if the trimmed value is not wrapped in matching quotes, emit an
Error".  Lines are matched with the same `<key>: <value>` line scan as the
string-safety heuristic. -/
def descriptionCheckDiags (value : String) : List Diag :=
  (possibleStringMatches value).filterMap fun m =>
    if keyEndsInDescription m.2.1 && !insideQuotes (jsTrim m.2.2.data) then
      some (.descriptionError m.1)
    else none

/-! ## Helper lemmas -/

theorem aux_filterMap_guard {α β : Type} (p : α → Bool) (f : α → β) :
    ∀ l : List α,
      (l.filterMap fun a => if p a then some (f a) else none) = (l.filter p).map f := by
  intro l
  induction l with
  | nil => rfl
  | cons a t ih =>
    by_cases h : p a <;>
      simp [List.filterMap_cons, List.filter_cons, h, ih]

/-! ## Shared concrete fixtures for witnesses and counterexamples -/

/-- A black-box environment whose collaborators return nothing useful. -/
def emptyEnv : Env :=
  { fromHtml := fun _ => []
    fromMarkdown := fun _ => []
    parseYaml := fun _ => .error "err"
    validateAgainstSchema := none
    breakingChangesFileHeadingIds := none
    prVersions := [] }

/-- Default options: the default toggles of `parseCommandLine`
(placement and strings on, PR links off, no schema, no
breaking-changes file). -/
def defaultOptions : Options :=
  { checkPlacement := true
    checkPullRequestLinks := false
    breakingChangesFile := ""
    checkStrings := true
    schema := "" }

/-! ## Claim C1 -/

/-- Claim C1, as stated, is false: a candidate block whose re-parsed HTML
fragment has a first child that is not a comment node (here a `div`
element) is skipped with NO diagnostic — `processBlock` returns the empty
diagnostic list, so no Format Error is reported and the error count is
unchanged. -/
theorem claim1_counterexample :
    processBlock { emptyEnv with fromHtml := fun _ => [HNode.element "div"] }
        defaultOptions "<div>```yaml history</div>" none = .ok [] ∧
    HNode.isComment (HNode.element "div") = false ∧
    countErrors [] = 0 := by
  refine ⟨rfl, rfl, rfl⟩

/-- Claim C1 (amended): for every candidate block whose raw text,
re-parsed as an isolated HTML fragment, does not have a comment node as
its first child, the extractor SILENTLY skips the block — no diagnostic is
emitted and the error count is unchanged — and moves to the next candidate
block with no downstream stage running for that block. -/
theorem claim1_amended (env : Env) (opts : Options) (v : String)
    (prev : Option MdNode) (hc : HNode)
    (h1 : (env.fromHtml v).head? = some hc) (h2 : hc.isComment = false) :
    processBlock env opts v prev = .ok [] := by
  unfold processBlock
  rw [h1]
  cases hc with
  | comment c => simp [HNode.isComment] at h2
  | element t => simp [h2]
  | htext s => simp [h2]

/-- Witness for the amended C1 at a concrete input. -/
theorem claim1_witness :
    processBlock { emptyEnv with fromHtml := fun _ => [HNode.htext "x"] }
      defaultOptions "v" none = .ok [] :=
  claim1_amended _ _ _ _ (HNode.htext "x") rfl rfl

/-! ## Claim C6 -/

/-- The fence-acceptance condition as the SPEC words it (refinement
comparison definition, not taken from the source): declared language
case-insensitively equal to "yaml" and fence metadata, trimmed and
case-insensitively, equal to "history". -/
def specAcceptsFence : MdNode → Bool
  | .code lang mt _ =>
    (lang.map sToLower) = some "yaml" &&
      (mt.map fun s => sToLower ⟨jsTrim s.data⟩) = some "history"
  | _ => false

/-- Claim C6, as stated, is false: a fence with language `yaml` and
metadata `HISTORY` satisfies the spec's case-insensitive acceptance
condition, yet the source compares the trimmed metadata case-SENSITIVELY
(`codeBlock.meta?.trim() !== 'history'`) and reports a Format Error. -/
theorem claim6_counterexample :
    specAcceptsFence (MdNode.code (some "yaml") (some "HISTORY") "added: x") = true ∧
    processBlock
        { emptyEnv with
          fromHtml := fun _ => [HNode.comment "inner"]
          fromMarkdown := fun _ => [MdNode.code (some "yaml") (some "HISTORY") "added: x"] }
        defaultOptions "blk" (some (MdNode.heading 4 [])) =
      .ok [Diag.formatError "blk"] := by
  refine ⟨rfl, rfl⟩

/-- Claim C6 (amended): for a candidate block whose HTML comment's inner
text parses to a first child `cb`, the extractor accepts the fence exactly
when `cb` is a fenced code node whose language, lowercased, is "yaml" and
whose metadata, trimmed, is exactly "history" (the metadata comparison is
case-sensitive; the language comparison is case-insensitive); any mismatch
is reported as exactly one Format Error for the block, the block is
skipped, and a run whose error count is positive exits 1. -/
theorem claim6_amended (env : Env) (opts : Options) (v : String)
    (prev : Option MdNode) (ct : String) (cb : MdNode)
    (h1 : (env.fromHtml v).head? = some (HNode.comment ct))
    (h2 : (env.fromMarkdown ct).head? = some cb) :
    (acceptsFence cb = false →
      processBlock env opts v prev = .ok [Diag.formatError v] ∧
        countErrors [Diag.formatError v] = 1) ∧
    (∀ lang mt cv, acceptsFence (MdNode.code lang mt cv) = true →
      (mt.map fun s => ((⟨jsTrim s.data⟩ : String))) = some "history") ∧
    acceptsFence (MdNode.code (some "YAML") (some " history ") "x") = true ∧
    (∀ r : LintingResults, 0 < r.errorCounter → exitCode r = 1) := by
  refine ⟨?_, ?_, ?_, ?_⟩
  · intro hrej
    constructor
    · unfold processBlock
      rw [h1]
      simp [HNode.isComment, h2, hrej]
    · rfl
  · intro lang mt cv hacc
    simp only [acceptsFence, Bool.and_eq_true, decide_eq_true_eq] at hacc
    exact hacc.2
  · rfl
  · intro r h
    simp [exitCode, Nat.pos_iff_ne_zero.mp h, h]

/-- The environment of the C6 witness: the comment's inner text parses to
a fence with language `yml` (the spec's Scenario B). -/
def scenarioBEnv : Env :=
  { emptyEnv with
    fromHtml := fun _ => [HNode.comment "inner"]
    fromMarkdown := fun _ => [MdNode.code (some "yml") (some "history") "x"] }

/-- Witness for the amended C6: the spec's own Scenario B (language `yml`
instead of `yaml`) produces exactly one Format Error. -/
theorem claim6_witness :
    processBlock scenarioBEnv defaultOptions "blk" none = .ok [Diag.formatError "blk"] ∧
      countErrors [Diag.formatError "blk"] = 1 :=
  (claim6_amended scenarioBEnv defaultOptions "blk" none "inner"
    (MdNode.code (some "yml") (some "history") "x") rfl rfl).1 rfl

/-! ## Claim C8 -/

/-- Claim C8: with `checkStrings` enabled, the string-safety heuristic
emits exactly one Warning per matched `key: value` line of the raw YAML
whose trimmed value is not fully wrapped in a single matching pair of
quotes and whose first or last character is non-alphanumeric-non-dot; it
never contributes an error, and a run whose error counter is zero exits
with status 0. -/
theorem claim8 (value : String) :
    stringCheckDiags value =
      ((possibleStringMatches value).filter fun m => suspiciousGroup m.2.2).map
        (fun m => Diag.stringWarning m.1 m.2.2) ∧
    countErrors (stringCheckDiags value) = 0 ∧
    countWarnings (stringCheckDiags value) =
      (possibleStringMatches value).countP (fun m => suspiciousGroup m.2.2) ∧
    (∀ r : LintingResults, r.errorCounter = 0 → exitCode r = 0) := by
  have hmain : stringCheckDiags value =
      ((possibleStringMatches value).filter fun m => suspiciousGroup m.2.2).map
        (fun m => Diag.stringWarning m.1 m.2.2) :=
    aux_filterMap_guard _ _ _
  refine ⟨hmain, ?_, ?_, ?_⟩
  · rw [hmain]
    unfold countErrors
    rw [List.countP_map]
    rw [show ((fun d => Diag.isError d) ∘
        fun (m : String × String × String) => Diag.stringWarning m.1 m.2.2) =
        fun _ => false from funext fun m => rfl]
    simp
  · rw [hmain]
    unfold countWarnings
    rw [List.countP_map]
    rw [show ((fun d => !Diag.isError d) ∘
        fun (m : String × String × String) => Diag.stringWarning m.1 m.2.2) =
        fun _ => true from funext fun m => rfl]
    rw [List.countP_true, List.countP_eq_length_filter]
  · intro r h
    simp [exitCode, h]

/-- Witness for C8: the spec's Scenario F — an unquoted value ending in a
colon yields exactly one warning, zero errors, and a run with only
warnings exits 0. -/
theorem claim8_witness :
    stringCheckDiags "description: ends with colon:" =
      [Diag.stringWarning "description: ends with colon:" "ends with colon:"] ∧
    countErrors (stringCheckDiags "description: ends with colon:") = 0 ∧
    exitCode { historyBlockCounter := 1, documentCounter := 1,
               errorCounter := 0, warningCounter := 1 } = 0 :=
  ⟨by rfl, (claim8 _).2.1, (claim8 "").2.2.2 _ rfl⟩

/-! ## Claim C3 -/

/-- Claim C3 (spec-modelled): with `--check-descriptions` enabled, every
raw-text line whose key ends in "description" and whose trimmed value is
not wrapped in matching quotes yields an Error diagnostic from the
Description-Quoting Check — stricter than the general string check, whose
diagnostics are all warnings. -/
theorem claim3 (value : String) :
    (∀ d ∈ descriptionCheckDiags value, d.isError = true) ∧
    descriptionCheckDiags value =
      ((possibleStringMatches value).filter fun m =>
          keyEndsInDescription m.2.1 && !insideQuotes (jsTrim m.2.2.data)).map
        (fun m => Diag.descriptionError m.1) ∧
    (∀ m ∈ possibleStringMatches value,
      keyEndsInDescription m.2.1 = true →
      insideQuotes (jsTrim m.2.2.data) = false →
      Diag.descriptionError m.1 ∈ descriptionCheckDiags value) ∧
    (∀ d ∈ stringCheckDiags value, d.isError = false) := by
  have hmain : descriptionCheckDiags value =
      ((possibleStringMatches value).filter fun m =>
          keyEndsInDescription m.2.1 && !insideQuotes (jsTrim m.2.2.data)).map
        (fun m => Diag.descriptionError m.1) :=
    aux_filterMap_guard _ _ _
  refine ⟨?_, hmain, ?_, ?_⟩
  · intro d hd
    rw [hmain] at hd
    rcases List.mem_map.mp hd with ⟨m, _, hEq⟩
    rw [← hEq]
    rfl
  · intro m hm hk hq
    rw [hmain]
    refine List.mem_map.mpr ⟨m, List.mem_filter.mpr ⟨hm, ?_⟩, rfl⟩
    simp [hk, hq]
  · intro d hd
    rw [(claim8 value).1] at hd
    rcases List.mem_map.mp hd with ⟨m, _, hEq⟩
    rw [← hEq]
    rfl

/-- Witness for C3 at a concrete input: an unquoted description line
yields one Error diagnostic, while the same line only warns under the
general string check. -/
theorem claim3_witness :
    Diag.descriptionError "description: unquoted value:" ∈
      descriptionCheckDiags "description: unquoted value:" ∧
    descriptionCheckDiags "description: unquoted value:" =
      [Diag.descriptionError "description: unquoted value:"] :=
  ⟨(claim3 _).2.2.1 ("description: unquoted value:", "description", "unquoted value:")
      (by
        rw [show possibleStringMatches "description: unquoted value:" =
          [("description: unquoted value:", "description", "unquoted value:")] from rfl]
        exact List.mem_singleton.mpr rfl) rfl rfl,
   by rfl⟩

/-! ## Claim C2 -/

/-- A decoded history carrying an unresolvable breaking-changes header. -/
def fooHist : ApiHistory :=
  { changes := some [{ prUrl := "u", breakingChangesHeader := some "foo" }] }

/-- An environment where every stage succeeds: the block is a proper
comment + yaml/history fence, the YAML decodes to `fooHist`, the schema
validator passes, and the index only contains "bar". -/
def fooEnv : Env :=
  { fromHtml := fun _ => [HNode.comment "inner"]
    fromMarkdown := fun _ => [MdNode.code (some "yaml") (some "history") "body"]
    parseYaml := fun _ => .ok fooHist
    validateAgainstSchema := some fun _ => true
    breakingChangesFileHeadingIds := some ["bar"]
    prVersions := [] }

/-- Options with every file-based validator configured. -/
def fullOptions : Options :=
  { checkPlacement := true
    checkPullRequestLinks := false
    breakingChangesFile := "bcfile"
    checkStrings := false
    schema := "schemafile" }

/-- Claim C2, as stated, is false: the placement validator is NOT
best-effort.  For a block with no preceding heading whose YAML decodes
fine and whose `changes` carry an unresolvable breaking-changes header,
the placement failure `continue`s out of the block: the result contains
only the placement error, and the Reference Error the downstream validator
would have produced never appears. -/
theorem claim2_counterexample :
    processBlock fooEnv fullOptions "blk" none = .ok [Diag.placementError "blk"] ∧
    breakingChangesDiags fooHist ["bar"] = [Diag.refError "foo"] ∧
    Diag.refError "foo" ∉ [Diag.placementError "blk"] := by
  refine ⟨rfl, rfl, by decide⟩

/-- Claim C2 (amended): a YAML decode exception is reported with the
parser's native error text and aborts all downstream validators for the
block; but it is not the single terminal failure point — the placement and
schema validators likewise abort the block's remaining validators when
they fail, while the string check's warnings are kept and the two
cross-reference checks are best-effort (they run together after a passing
schema validation). -/
theorem claim2_amended (env : Env) (opts : Options) (v : String)
    (prev : Option MdNode) (ct : String) (cb : MdNode)
    (h1 : (env.fromHtml v).head? = some (HNode.comment ct))
    (h2 : (env.fromMarkdown ct).head? = some cb)
    (h3 : acceptsFence cb = true) :
    (∀ msg, (opts.checkPlacement = false ∨ (prev.map MdNode.isHeading).getD false = true) →
      env.parseYaml (fenceValue cb) = .error msg →
      processBlock env opts v prev =
        .ok (blockStringDiags opts cb ++ [Diag.yamlParseError msg])) ∧
    (opts.checkPlacement = true → (prev.map MdNode.isHeading).getD false = false →
      processBlock env opts v prev =
        .ok (blockStringDiags opts cb ++ [Diag.placementError v])) ∧
    (∀ hist vf, (opts.checkPlacement = false ∨ (prev.map MdNode.isHeading).getD false = true) →
      env.parseYaml (fenceValue cb) = .ok hist →
      opts.schema ≠ "" → env.validateAgainstSchema = some vf → vf hist = false →
      processBlock env opts v prev =
        .ok (blockStringDiags opts cb ++ [Diag.schemaError v])) ∧
    (∀ hist vf ids,
      (opts.checkPlacement = false ∨ (prev.map MdNode.isHeading).getD false = true) →
      env.parseYaml (fenceValue cb) = .ok hist →
      opts.schema ≠ "" → env.validateAgainstSchema = some vf → vf hist = true →
      opts.breakingChangesFile ≠ "" → env.breakingChangesFileHeadingIds = some ids →
      opts.checkPullRequestLinks = true →
      processBlock env opts v prev =
        .ok (blockStringDiags opts cb ++ breakingChangesDiags hist ids ++
          pullRequestDiags hist env.prVersions)) := by
  refine ⟨?_, ?_, ?_, ?_⟩
  · intro msg hpl hyaml
    unfold processBlock
    rw [h1]
    simp only [HNode.isComment, Bool.not_true, Bool.false_eq_true, if_false, h2]
    rcases hpl with hpl | hpl <;>
      simp [h3, hpl, hyaml, blockStringDiags]
  · intro hcp hph
    unfold processBlock
    rw [h1]
    simp only [HNode.isComment, Bool.not_true, Bool.false_eq_true, if_false, h2]
    simp [h3, hcp, hph, blockStringDiags]
  · intro hist vf hpl hyaml hs hv hvf
    unfold processBlock
    rw [h1]
    simp only [HNode.isComment, Bool.not_true, Bool.false_eq_true, if_false, h2]
    rcases hpl with hpl | hpl <;>
      simp [h3, hpl, hyaml, hs, hv, hvf, blockStringDiags]
  · intro hist vf ids hpl hyaml hs hv hvf hbc hids hpr
    unfold processBlock
    rw [h1]
    simp only [HNode.isComment, Bool.not_true, Bool.false_eq_true, if_false, h2]
    rcases hpl with hpl | hpl <;>
      simp [h3, hpl, hyaml, hs, hv, hvf, hbc, hids, hpr, blockStringDiags]

/-- Witness for the amended C2: a decode failure on a well-placed block
yields exactly the parser's error and nothing downstream. -/
theorem claim2_witness :
    processBlock
        { fooEnv with parseYaml := fun _ => .error "bad yaml" }
        fullOptions "blk" (some (MdNode.heading 4 [])) =
      .ok [Diag.yamlParseError "bad yaml"] :=
  (claim2_amended { fooEnv with parseYaml := fun _ => .error "bad yaml" }
      fullOptions "blk" (some (MdNode.heading 4 [])) "inner"
      (MdNode.code (some "yaml") (some "history") "body") rfl rfl rfl).1
    "bad yaml" (Or.inr rfl) rfl

/-! ## Claim C4 -/

/-- Options with a breaking-changes file configured but NO schema. -/
def bcOnlyOptions : Options :=
  { checkPlacement := false
    checkPullRequestLinks := false
    breakingChangesFile := "bcfile"
    checkStrings := false
    schema := "" }

/-- Claim C4, as stated, is false: with a breaking-changes file configured
but no schema path, a block whose YAML decodes successfully and carries an
unresolvable breaking-changes header produces NO Reference Error — the
guard `if (!schema || validateAgainstSchema === null) continue` stops the
block right after the decode, so the cross-reference validator does
require the schema validator to be enabled. -/
theorem claim4_counterexample :
    processBlock { fooEnv with validateAgainstSchema := none } bcOnlyOptions
        "blk" none = .ok [] ∧
    breakingChangesDiags fooHist ["bar"] = [Diag.refError "foo"] ∧
    Diag.refError "foo" ∉ ([] : List Diag) := by
  refine ⟨rfl, rfl, by decide⟩

/-- Claim C4 (amended): the cross-reference validators run only when a
schema is configured and compiles: without a schema (or with a null
compiled validator) a successfully decoded block contributes only the
string-check warnings, no matter what the breaking-changes configuration
says; with a schema whose validation passes, the breaking-changes check
runs under its own toggle alone. -/
theorem claim4_amended (env : Env) (opts : Options) (v : String)
    (prev : Option MdNode) (ct : String) (cb : MdNode)
    (h1 : (env.fromHtml v).head? = some (HNode.comment ct))
    (h2 : (env.fromMarkdown ct).head? = some cb)
    (h3 : acceptsFence cb = true)
    (hpl : opts.checkPlacement = false ∨ (prev.map MdNode.isHeading).getD false = true)
    (hist : ApiHistory) (hok : env.parseYaml (fenceValue cb) = .ok hist) :
    (opts.schema = "" →
      processBlock env opts v prev = .ok (blockStringDiags opts cb)) ∧
    (env.validateAgainstSchema = none →
      processBlock env opts v prev = .ok (blockStringDiags opts cb)) ∧
    (∀ vf ids, opts.schema ≠ "" → env.validateAgainstSchema = some vf →
      vf hist = true → opts.breakingChangesFile ≠ "" →
      env.breakingChangesFileHeadingIds = some ids →
      opts.checkPullRequestLinks = false →
      processBlock env opts v prev =
        .ok (blockStringDiags opts cb ++ breakingChangesDiags hist ids)) := by
  refine ⟨?_, ?_, ?_⟩
  · intro hs
    unfold processBlock
    rw [h1]
    simp only [HNode.isComment, Bool.not_true, Bool.false_eq_true, if_false, h2]
    rcases hpl with hpl | hpl <;>
      simp [h3, hpl, hok, hs, blockStringDiags]
  · intro hv
    unfold processBlock
    rw [h1]
    simp only [HNode.isComment, Bool.not_true, Bool.false_eq_true, if_false, h2]
    rcases hpl with hpl | hpl <;>
      simp [h3, hpl, hok, hv, blockStringDiags]
  · intro vf ids hs hv hvf hbc hids hpr
    unfold processBlock
    rw [h1]
    simp only [HNode.isComment, Bool.not_true, Bool.false_eq_true, if_false, h2]
    rcases hpl with hpl | hpl <;>
      simp [h3, hpl, hok, hs, hv, hvf, hbc, hids, hpr, blockStringDiags]

/-- Witness for the amended C4 at the concrete counterexample input. -/
theorem claim4_witness :
    processBlock { fooEnv with validateAgainstSchema := none } bcOnlyOptions
      "blk" none = .ok [] :=
  (claim4_amended { fooEnv with validateAgainstSchema := none } bcOnlyOptions
      "blk" none "inner" (MdNode.code (some "yaml") (some "history") "body")
      rfl rfl rfl (Or.inl rfl) fooHist rfl).1 rfl

/-! ## Claim C7 -/

mutual

theorem aux_collectNode_fst (n : MdNode) (i : Nat) :
    (collectNode n i).map Prod.fst = (preorderNode n).filter isApiHistoryCandidate := by
  cases n with
  | html v =>
    by_cases h : isApiHistoryCandidate (.html v) <;>
      simp [collectNode, preorderNode, List.filter, h]
  | heading d cs =>
    simp [collectNode, preorderNode, List.filter_cons, isApiHistoryCandidate,
      aux_collectChildren_fst cs 0]
  | code l m v =>
    simp [collectNode, preorderNode, List.filter, isApiHistoryCandidate]
  | literal t v =>
    simp [collectNode, preorderNode, List.filter, isApiHistoryCandidate]
  | container t cs =>
    simp [collectNode, preorderNode, List.filter_cons, isApiHistoryCandidate,
      aux_collectChildren_fst cs 0]

theorem aux_collectChildren_fst (ns : List MdNode) (i : Nat) :
    (collectChildren ns i).map Prod.fst =
      (preorderList ns).filter isApiHistoryCandidate := by
  cases ns with
  | nil => rfl
  | cons n rest =>
    simp [collectChildren, preorderList, List.filter_append,
      aux_collectNode_fst n i, aux_collectChildren_fst rest (i + 1)]

end

theorem aux_collectChildren_mem (ns : List MdNode) :
    ∀ (i j : Nat) (n : MdNode), ns.get? j = some n →
      isApiHistoryCandidate n = true → (n, i + j) ∈ collectChildren ns i := by
  induction ns with
  | nil => intro i j n h; simp at h
  | cons a rest ih =>
    intro i j n hget htest
    cases j with
    | zero =>
      simp at hget
      subst hget
      cases a with
      | html v =>
        simp [collectChildren, collectNode, htest]
      | heading d cs => simp [isApiHistoryCandidate] at htest
      | code l m v => simp [isApiHistoryCandidate] at htest
      | literal t v => simp [isApiHistoryCandidate] at htest
      | container t cs => simp [isApiHistoryCandidate] at htest
    | succ j' =>
      have h := ih (i + 1) j' n (by simpa using hget) htest
      have : i + (j' + 1) = (i + 1) + j' := by omega
      rw [this]
      simp [collectChildren]
      exact Or.inr h

/-- Claim C7 (amended): `findPossibleApiHistoryBlocks` returns, in
document order, exactly the raw HTML nodes whose lowercased text contains
"```", "yaml" and "history", without touching the input tree; but the
"previous node" attached to a match is the ROOT's child at `index - 1`
where `index` is the match's position within its OWN parent (absent when
that index is 0 or out of range) — which is the immediately preceding
sibling only for top-level matches. -/
theorem claim7_amended (rootChildren : List MdNode) :
    ((findPossibleApiHistoryBlocks rootChildren).map Prod.fst =
      (preorderList rootChildren).filter isApiHistoryCandidate) ∧
    (∀ p ∈ findPossibleApiHistoryBlocks rootChildren,
      isApiHistoryCandidate p.1 = true) ∧
    (∀ i n, rootChildren.get? i = some n → isApiHistoryCandidate n = true →
      (n, if i = 0 then none else rootChildren.get? (i - 1)) ∈
        findPossibleApiHistoryBlocks rootChildren) := by
  have hfst : (findPossibleApiHistoryBlocks rootChildren).map Prod.fst =
      (preorderList rootChildren).filter isApiHistoryCandidate := by
    unfold findPossibleApiHistoryBlocks
    rw [List.map_map]
    exact aux_collectChildren_fst rootChildren 0
  refine ⟨hfst, ?_, ?_⟩
  · intro p hp
    have : p.1 ∈ (findPossibleApiHistoryBlocks rootChildren).map Prod.fst :=
      List.mem_map.mpr ⟨p, hp, rfl⟩
    rw [hfst] at this
    exact (List.mem_filter.mp this).2
  · intro i n hget htest
    have hmem : (n, i) ∈ collectChildren rootChildren 0 := by
      have := aux_collectChildren_mem rootChildren 0 i n hget htest
      simpa using this
    exact List.mem_map.mpr ⟨(n, i), hmem, rfl⟩

/-- A tree whose candidate block is nested: the root has a literal then a
blockquote, and the html node is the blockquote's SECOND child. -/
def nestedRoot : List MdNode :=
  [MdNode.literal "text" "A",
   MdNode.container "blockquote"
     [MdNode.literal "text" "B", MdNode.html "``` yaml history"]]

/-- Claim C7, as stated, is false: for the nested candidate above, the
immediately preceding sibling in its parent's child list is the literal
"B", but the function attaches `tree.children[1 - 1]` — the ROOT's first
child, the (different) literal "A". -/
theorem claim7_counterexample :
    findPossibleApiHistoryBlocks nestedRoot =
      [(MdNode.html "``` yaml history", some (MdNode.literal "text" "A"))] ∧
    (MdNode.container "blockquote"
        [MdNode.literal "text" "B", MdNode.html "``` yaml history"]).childNodes.get? 0 =
      some (MdNode.literal "text" "B") ∧
    (MdNode.literal "text" "A").literalValue ≠
      (MdNode.literal "text" "B").literalValue := by
  refine ⟨rfl, rfl, by decide⟩

/-- Witness for the amended C7: a top-level match at index 1 is paired
with its true preceding sibling, the heading. -/
theorem claim7_witness :
    (MdNode.html "```yaml history", some (MdNode.heading 1 [])) ∈
      findPossibleApiHistoryBlocks
        [MdNode.heading 1 [], MdNode.html "```yaml history"] :=
  (claim7_amended [MdNode.heading 1 [], MdNode.html "```yaml history"]).2.2
    1 (MdNode.html "```yaml history") rfl rfl

/-! ## Claim C9 -/

theorem aux_headingIdStep_none (cs : List MdNode) :
    cs.foldl headingIdStep none = none := by
  induction cs with
  | nil => rfl
  | cons c t ih =>
    have h : headingIdStep none c = none := by
      unfold headingIdStep
      cases c.literalValue <;> rfl
    simp [List.foldl, h, ih]

theorem aux_headingId_acc (cs : List MdNode) :
    ∀ a : String, cs.foldl headingIdStep (some a) =
      (cs.foldl headingIdStep (some "")).map (fun r => a ++ r) := by
  induction cs with
  | nil =>
    intro a
    simp [String.append_empty]
  | cons c t ih =>
    intro a
    cases hv : c.literalValue with
    | none =>
      have h1 : headingIdStep (some a) c = none := by
        unfold headingIdStep
        rw [hv]
      have h2 : headingIdStep (some "") c = none := by
        unfold headingIdStep
        rw [hv]
      simp [List.foldl, h1, h2, aux_headingIdStep_none]
    | some v =>
      have h1 : headingIdStep (some a) c = some (a ++ slugifyValue v) := by
        unfold headingIdStep
        rw [hv]
      have h2 : headingIdStep (some "") c = some ("" ++ slugifyValue v) := by
        unfold headingIdStep
        rw [hv]
      rw [List.foldl_cons, List.foldl_cons, h1, h2, String.empty_append,
        ih (a ++ slugifyValue v), ih (slugifyValue v), Option.map_map]
      refine congrFun (congrArg Option.map (funext fun r => ?_)) _
      simp [Function.comp, String.append_assoc]

theorem aux_buildHeadingIds_mapM (hs : List MdNode) :
    hs.foldr
      (fun h acc =>
        match headingId h.childNodes, acc with
        | some i, some is => some (i :: is)
        | _, _ => none)
      (some []) = hs.mapM (fun n => headingId n.childNodes) := by
  induction hs with
  | nil => rfl
  | cons h t ih =>
    rw [List.foldr_cons, ih, List.mapM_cons]
    cases headingId h.childNodes <;> cases t.mapM (fun n => headingId n.childNodes) <;>
      simp

/-- Claim C9: the Breaking-Changes Index is the list of the companion
file's level-3 headings, each slugified by lowercasing, replacing spaces
with hyphens and stripping non-alphanumeric-non-hyphen characters
(children concatenated in order); and for every entry across a decoded
history's `changes` and `deprecated` arrays carrying a (truthy)
`breaking-changes-header`, exactly one Error is reported when that
verbatim value is absent from the index — entries under `added` are never
checked. -/
theorem claim9 (bcChildren : List MdNode) (hist : ApiHistory) (ids : List String)
    (c : MdNode) (cs : List MdNode) :
    (buildHeadingIds bcChildren =
      (bcChildren.filter fun n =>
        match n with
        | .heading d _ => d = 3
        | _ => false).mapM (fun n => headingId n.childNodes)) ∧
    (headingId (c :: cs) =
      match c.literalValue with
      | some v => (headingId cs).map (fun r => slugifyValue v ++ r)
      | none => none) ∧
    (breakingChangesDiags hist ids =
      ((breakingChangeHeaders hist).filter fun h => !ids.contains h).map
        Diag.refError) ∧
    (countErrors (breakingChangesDiags hist ids) =
      ((breakingChangeHeaders hist).filter fun h => !ids.contains h).length) ∧
    (∀ a, breakingChangesDiags { hist with added := a } ids =
      breakingChangesDiags hist ids) := by
  have hguard : breakingChangesDiags hist ids =
      ((breakingChangeHeaders hist).filter fun h => !ids.contains h).map
        Diag.refError := by
    unfold breakingChangesDiags
    rw [show (fun h => if ids.contains h then none else some (Diag.refError h)) =
      (fun h => if !ids.contains h then some (Diag.refError h) else none) from
      funext fun h => by cases ids.contains h <;> rfl]
    exact aux_filterMap_guard _ _ _
  refine ⟨aux_buildHeadingIds_mapM _, ?_, hguard, ?_, ?_⟩
  · unfold headingId
    rw [List.foldl_cons]
    cases hv : c.literalValue with
    | none =>
      have h1 : headingIdStep (some "") c = none := by
        unfold headingIdStep
        rw [hv]
      simp [h1, aux_headingIdStep_none]
    | some v =>
      have h1 : headingIdStep (some "") c = some ("" ++ slugifyValue v) := by
        unfold headingIdStep
        rw [hv]
      rw [h1, String.empty_append]
      exact aux_headingId_acc cs (slugifyValue v)
  · rw [hguard]
    unfold countErrors
    rw [List.countP_map]
    rw [show ((fun d => Diag.isError d) ∘ Diag.refError) = fun _ => true from
      funext fun h => rfl]
    rw [List.countP_true]
  · intro a
    rfl

/-! ## Claims C10 and C5 -/

/-- The diagnostics of a non-throwing block (spec-side accounting). -/
def blockOkDiags (env : Env) (opts : Options) (b : MdNode × Option MdNode) :
    List Diag :=
  match processBlock env opts ((b.1.literalValue).getD "") b.2 with
  | .ok ds => ds
  | .error _ => []

/-- Total number of candidate blocks across a corpus. -/
def docsBlockTotal (docs : List (List MdNode)) : Nat :=
  (docs.map fun d => (findPossibleApiHistoryBlocks d).length).sum

/-- Total number of errors across a corpus (spec-side accounting). -/
def docsErrorTotal (env : Env) (opts : Options) (docs : List (List MdNode)) : Nat :=
  (docs.map fun d =>
    ((findPossibleApiHistoryBlocks d).map fun b =>
      countErrors (blockOkDiags env opts b)).sum).sum

/-- Total number of warnings across a corpus (spec-side accounting). -/
def docsWarningTotal (env : Env) (opts : Options) (docs : List (List MdNode)) : Nat :=
  (docs.map fun d =>
    ((findPossibleApiHistoryBlocks d).map fun b =>
      countWarnings (blockOkDiags env opts b)).sum).sum

/-- Bump every counter of a result record by the given amounts. -/
def addCounts (acc : LintingResults) (blocks docsN errs warns : Nat) :
    LintingResults :=
  { historyBlockCounter := acc.historyBlockCounter + blocks
    documentCounter := acc.documentCounter + docsN
    errorCounter := acc.errorCounter + errs
    warningCounter := acc.warningCounter + warns }

theorem aux_addCounts_zero (acc : LintingResults) : addCounts acc 0 0 0 0 = acc := by
  cases acc
  simp [addCounts]

theorem aux_processBlocks_ok (env : Env) (opts : Options) :
    ∀ (blks : List (MdNode × Option MdNode)) (acc : LintingResults),
      (∀ b ∈ blks,
        processBlock env opts ((b.1.literalValue).getD "") b.2 ≠ .error ()) →
      processBlocks env opts blks acc =
        .ok (addCounts acc blks.length 0
          ((blks.map fun b => countErrors (blockOkDiags env opts b)).sum)
          ((blks.map fun b => countWarnings (blockOkDiags env opts b)).sum)) := by
  intro blks
  induction blks with
  | nil =>
    intro acc _
    simp [processBlocks, aux_addCounts_zero]
  | cons b rest ih =>
    intro acc hno
    obtain ⟨n, prev⟩ := b
    have hmem : (n, prev) ∈ (n, prev) :: rest := List.mem_cons_self _ _
    cases hpb : processBlock env opts ((n.literalValue).getD "") prev with
    | error u =>
      cases u
      exact absurd hpb (hno (n, prev) hmem)
    | ok ds =>
      have hstep : processBlocks env opts ((n, prev) :: rest) acc =
          processBlocks env opts rest
            { acc with
              historyBlockCounter := acc.historyBlockCounter + 1
              errorCounter := acc.errorCounter + countErrors ds
              warningCounter := acc.warningCounter + countWarnings ds } := by
        simp only [processBlocks, hpb]
      rw [hstep, ih _ (fun b hb => hno b (List.mem_cons_of_mem _ hb))]
      have hbd : blockOkDiags env opts (n, prev) = ds := by
        unfold blockOkDiags
        rw [hpb]
      cases acc
      simp only [addCounts, hbd, List.map_cons, List.sum_cons, List.length_cons,
        Except.ok.injEq, LintingResults.mk.injEq]
      exact ⟨by omega, trivial, by omega, by omega⟩

theorem aux_scanDocuments_ok (env : Env) (opts : Options) :
    ∀ (docs : List (List MdNode)) (acc : LintingResults),
      (∀ d ∈ docs, ∀ b ∈ findPossibleApiHistoryBlocks d,
        processBlock env opts ((b.1.literalValue).getD "") b.2 ≠ .error ()) →
      scanDocuments env opts docs acc =
        .ok (addCounts acc (docsBlockTotal docs) docs.length
          (docsErrorTotal env opts docs) (docsWarningTotal env opts docs)) := by
  intro docs
  induction docs with
  | nil =>
    intro acc _
    simp [scanDocuments, docsBlockTotal, docsErrorTotal, docsWarningTotal,
      aux_addCounts_zero]
  | cons d rest ih =>
    intro acc hno
    have hpb := aux_processBlocks_ok env opts (findPossibleApiHistoryBlocks d)
      { acc with documentCounter := acc.documentCounter + 1 }
      (hno d (List.mem_cons_self _ _))
    have hstep : scanDocuments env opts (d :: rest) acc =
        scanDocuments env opts rest
          (addCounts { acc with documentCounter := acc.documentCounter + 1 }
            (findPossibleApiHistoryBlocks d).length 0
            (((findPossibleApiHistoryBlocks d).map fun b =>
              countErrors (blockOkDiags env opts b)).sum)
            (((findPossibleApiHistoryBlocks d).map fun b =>
              countWarnings (blockOkDiags env opts b)).sum)) := by
      simp only [scanDocuments, hpb]
    rw [hstep, ih _ (fun d2 hd2 => hno d2 (List.mem_cons_of_mem _ hd2))]
    cases acc
    simp only [addCounts, docsBlockTotal, docsErrorTotal, docsWarningTotal,
      List.map_cons, List.sum_cons, List.length_cons, Except.ok.injEq,
      LintingResults.mk.injEq]
    omega

/-- Claim C10: `main` always resolves with a `LintingResults` record: when
the setup or the corpus scan throws with partial counters `c`, the `catch`
increments the error counter exactly once and the `finally` still returns
the accumulated counters; when nothing throws, the counters are exactly
the per-block accounting over the whole corpus, so the caller can always
print the summary and compute the exit status. -/
theorem claim10 (opts : Options) (schemaLoad : Except Unit (ApiHistory → Bool))
    (bcLoad : Except Unit (List MdNode)) (base : Env)
    (docs : List (List MdNode)) :
    (∀ c, setupAndScan opts schemaLoad bcLoad base docs = .error c →
      main opts schemaLoad bcLoad base docs =
        { c with errorCounter := c.errorCounter + 1 }) ∧
    (∀ r, setupAndScan opts schemaLoad bcLoad base docs = .ok r →
      main opts schemaLoad bcLoad base docs = r) ∧
    (∀ env, setupEnv opts schemaLoad bcLoad base = .ok env →
      (∀ d ∈ docs, ∀ b ∈ findPossibleApiHistoryBlocks d,
        processBlock env opts ((b.1.literalValue).getD "") b.2 ≠ .error ()) →
      main opts schemaLoad bcLoad base docs =
        { historyBlockCounter := docsBlockTotal docs
          documentCounter := docs.length
          errorCounter := docsErrorTotal env opts docs
          warningCounter := docsWarningTotal env opts docs }) := by
  refine ⟨?_, ?_, ?_⟩
  · intro c h
    unfold main
    rw [h]
  · intro r h
    unfold main
    rw [h]
  · intro env hset hno
    have h1 : setupAndScan opts schemaLoad bcLoad base docs =
        scanDocuments env opts docs zeroResults := by
      unfold setupAndScan
      rw [hset]
    have h3 : main opts schemaLoad bcLoad base docs =
        addCounts zeroResults (docsBlockTotal docs) docs.length
          (docsErrorTotal env opts docs) (docsWarningTotal env opts docs) := by
      unfold main
      rw [h1, aux_scanDocuments_ok env opts docs zeroResults hno]
    rw [h3]
    simp [addCounts, zeroResults]

/-- Witness for C10: a corpus whose first block throws (its re-parsed
HTML fragment has no children at all, so destructuring the first child
fails) still produces a result — with one document and one block counted
and exactly one extra error. -/
theorem claim10_witness :
    main defaultOptions (.ok fun _ => true) (.ok []) emptyEnv
        [[MdNode.html "```yaml history"], []] =
      { historyBlockCounter := 1, documentCounter := 1, errorCounter := 1,
        warningCounter := 0 } :=
  (claim10 defaultOptions (.ok fun _ => true) (.ok []) emptyEnv
      [[MdNode.html "```yaml history"], []]).1
    { historyBlockCounter := 1, documentCounter := 1, errorCounter := 0,
      warningCounter := 0 } rfl

/-- Claim C5, as stated, is false: a corpus of TWO documents whose first
document's block throws ends the whole run with `documentCounter = 1` —
the scan does not continue to the second document (it is never counted),
although the error counter is incremented and the counters are returned. -/
theorem claim5_counterexample :
    main defaultOptions (.ok fun _ => true) (.ok []) emptyEnv
        [[MdNode.html "```yaml history"], []] =
      { historyBlockCounter := 1, documentCounter := 1, errorCounter := 1,
        warningCounter := 0 } ∧
    ([[MdNode.html "```yaml history"], []] : List (List MdNode)).length = 2 := by
  refine ⟨rfl, rfl⟩

/-- Claim C5 (amended): a catastrophic failure while processing a single
document increments the error count once and TERMINATES the scan — the
result is independent of every remaining document — while the counters
accumulated so far are still returned; and a missing/unreadable schema or
breaking-changes file is fatal in `init` before any document is scanned. -/
theorem claim5_amended :
    (∀ (env : Env) (opts : Options) (d : List MdNode)
        (rest : List (List MdNode)) (acc a : LintingResults),
      processBlocks env opts (findPossibleApiHistoryBlocks d)
          { acc with documentCounter := acc.documentCounter + 1 } = .error a →
      scanDocuments env opts (d :: rest) acc = .error a) ∧
    (∀ (opts : Options) (sl : Except Unit (ApiHistory → Bool))
        (bl : Except Unit (List MdNode)) (base : Env)
        (docs : List (List MdNode)) (env : Env) (c : LintingResults),
      setupEnv opts sl bl base = .ok env →
      scanDocuments env opts docs zeroResults = .error c →
      main opts sl bl base docs = { c with errorCounter := c.errorCounter + 1 }) ∧
    (∀ (opts : Options) (bAcc : Bool) (sl : Except Unit (ApiHistory → Bool))
        (bl : Except Unit (List MdNode)) (base : Env)
        (docs : List (List MdNode)),
      opts.schema ≠ "" →
      init opts false bAcc sl bl base docs = .configFailure) ∧
    (∀ (opts : Options) (sl : Except Unit (ApiHistory → Bool))
        (bl : Except Unit (List MdNode)) (base : Env)
        (docs : List (List MdNode)),
      opts.breakingChangesFile ≠ "" →
      init opts true false sl bl base docs = .configFailure) := by
  refine ⟨?_, ?_, ?_, ?_⟩
  · intro env opts d rest acc a h
    unfold scanDocuments
    rw [h]
  · intro opts sl bl base docs env c hset hscan
    have h1 : setupAndScan opts sl bl base docs =
        scanDocuments env opts docs zeroResults := by
      unfold setupAndScan
      rw [hset]
    unfold main
    rw [h1, hscan]
  · intro opts bAcc sl bl base docs hs
    unfold init
    simp [hs]
  · intro opts sl bl base docs hb
    unfold init
    simp [hb]

/-- Witness for the amended C5: the two-document corpus above throws in
document one; the scan's outcome is the thrown counters regardless of the
second document, and a configured but inaccessible schema path fails the
run before scanning. -/
theorem claim5_witness :
    scanDocuments emptyEnv defaultOptions
        [[MdNode.html "```yaml history"], []] zeroResults =
      .error { historyBlockCounter := 1, documentCounter := 1,
               errorCounter := 0, warningCounter := 0 } ∧
    init { defaultOptions with schema := "s" } false true
        (.ok fun _ => true) (.ok []) emptyEnv [] = .configFailure :=
  ⟨claim5_amended.1 emptyEnv defaultOptions [MdNode.html "```yaml history"]
      [[]] zeroResults _ rfl,
   claim5_amended.2.2.1 { defaultOptions with schema := "s" } true
      (.ok fun _ => true) (.ok []) emptyEnv [] (by decide)⟩

end ApiHistoryLint
